import Mathlib

/-!
Shallow embedding of the inventory/order backend (src/index.ts) of the
inventarioBack repository.  Firestore documents are modelled as association
lists keyed by document id; each HTTP endpoint's core logic is translated
into a pure function over an explicit `Store` state.  JavaScript numbers are
modelled as `Int` (the claims only involve exact integer arithmetic), and
fallible transaction bodies return `Except`.
-/

/-- `Material` interface (index.ts lines 30-35): a material line attached to a
stock variant; `cost` is the unit cost and `quantity` the quantity consumed
per use. -/
structure Material where
  uid : String
  name : String
  cost : Int
  quantity : Int
deriving DecidableEq, Repr, Inhabited

/-- `SizeOption` interface (index.ts lines 44-51): a named stock variant with
price, on-hand quantity, material list and the derived cost fields. -/
structure SizeOption where
  name : String
  price : Int
  quantity : Int
  materials : List Material
  productionCost : Option Int := none
  profit : Option Int := none
deriving DecidableEq, Repr, Inhabited

/-- `StockHistory` log entry shape (index.ts lines 53-60) extended with the
`productId`/`productName`/`sizeName` fields that both log-writing sites add. -/
structure StockLogEntry where
  date : String
  addedStock : Int
  totalStockBefore : Int
  totalStockAfter : Int
  notes : String
  productId : String
  productName : String
  sizeName : String
deriving DecidableEq, Repr, Inhabited

/-- `Product` document (index.ts lines 68-78), restricted to the fields the
order/stock paths read or write.  `totalQuantity` is the extra field the
order transaction writes alongside `sizes`. -/
structure Product where
  name : String
  categoryId : String
  sizes : List SizeOption
  totalQuantity : Option Int := none
deriving DecidableEq, Repr, Inhabited

/-- `Customer` document (index.ts lines 87-97), restricted to the fields the
order path touches. -/
structure Customer where
  name : String
  phoneNumber : String
  ordersCount : Int
deriving DecidableEq, Repr, Inhabited

/-- `OrderItem` interface (index.ts lines 99-106). -/
structure OrderItem where
  productId : String
  name : String
  price : Int
  quantity : Int
  subtotal : Int
  materials : List Material
deriving DecidableEq, Repr, Inhabited

/-- `Order` document (index.ts lines 108-115); the `date` is the request
timestamp, passed in explicitly. -/
structure OrderDoc where
  items : List OrderItem
  paymentMethod : String
  total : Int
  productionCost : Int
  customerId : Option String
  date : String
deriving DecidableEq, Repr, Inhabited

/-- `Category` document (index.ts lines 80-85). -/
structure Category where
  name : String
  image : String
  position : Option Int := none
deriving DecidableEq, Repr, Inhabited

/-- The Firestore state visible to the endpoints under verification:
`inventory`, `customers`, `orders` and `stockLogs` collections. -/
structure Store where
  inventory : List (String × Product)
  customers : List (String × Customer)
  orders : List (String × OrderDoc)
  stockLogs : List StockLogEntry
deriving DecidableEq, Repr, Inhabited

/-- Look a document up by id in a collection (`db.collection(..).doc(id).get()`). -/
def findDoc {α : Type} (docs : List (String × α)) (id : String) : Option α :=
  match docs with
  | [] => none
  | (k, v) :: rest => if k = id then some v else findDoc rest id

/-- Overwrite the document stored under `id` (document ids are unique in
Firestore; mapping over the list keeps the embedding total). -/
def setDoc {α : Type} (docs : List (String × α)) (id : String) (v : α) :
    List (String × α) :=
  docs.map (fun kv => if kv.1 = id then (kv.1, v) else kv)

/-- The `processedSizes` computation shared verbatim by `POST /products`
(index.ts lines 176-183) and `PUT /products/:id` (lines 242-249): per variant,
`productionCost = Σ cost * (quantity > 0 ? quantity : 1)` and
`profit = price - productionCost`. -/
def processedSizes (sizes : List SizeOption) : List SizeOption :=
  sizes.map (fun size =>
    let productionCost := size.materials.foldl
      (fun sum material =>
        sum + material.cost * (if material.quantity > 0 then material.quantity else 1))
      0
    { size with productionCost := some productionCost,
                profit := some (size.price - productionCost) })

/-- Spec-side per-variant cost formula (spec §3): the sum over the variant's
materials of `unitCost * max(quantityPerUse, 1)`. -/
def specVariantCost (materials : List Material) : Int :=
  (materials.map (fun m => m.cost * max m.quantity 1)).sum

/-- The errors thrown inside the `POST /orders` transaction body
(index.ts lines 419-504), by thrown message. -/
inductive Err where
  | customerNotFound (id : String)
  | productNotFound (id : String)
  | variantNotFound (name : String)
  | insufficientStock (name : String)
  | materialNotFound (uid : String)
  | insufficientMaterial (name : String)
deriving DecidableEq, Repr

/-- The `Stock insuficiente …` errors: the two insufficient-stock throws of
the order transaction (index.ts lines 446 and 468). -/
def Err.isInsufficient : Err → Bool
  | .insufficientStock _ => true
  | .insufficientMaterial _ => true
  | _ => false

/-- `reduce((sum, s) => sum + s.quantity, 0)` over a size list
(index.ts lines 455 and 472). -/
def sumQuantities (sizes : List SizeOption) : Int :=
  sizes.foldl (fun sum s => sum + s.quantity) 0

/-- The finished-good variant walk of the order transaction (index.ts lines
441-451): decrement every size whose name matches the item's, throwing
`Stock insuficiente` when the on-hand quantity is below the requested one;
the boolean is the `sizeFound` flag. -/
def updateOrderSizes (item : OrderItem) : List SizeOption → Except Err (List SizeOption × Bool)
  | [] => .ok ([], false)
  | size :: rest =>
    if size.name = item.name then
      if size.quantity < item.quantity then .error (.insufficientStock item.name)
      else
        match updateOrderSizes item rest with
        | .error e => .error e
        | .ok (rest', _) =>
          .ok ({ size with quantity := size.quantity - item.quantity } :: rest', true)
    else
      match updateOrderSizes item rest with
      | .error e => .error e
      | .ok (rest', found) => .ok (size :: rest', found)

/-- The material stock walk of the order transaction (index.ts lines 465-471):
every size of the material product is decremented by
`material.quantity * item.quantity`, throwing `Stock insuficiente para el
material …` when a new quantity would be negative. -/
def deductMaterialSizes (m : Material) (itemQty : Int) :
    List SizeOption → Except Err (List SizeOption)
  | [] => .ok []
  | size :: rest =>
    if size.quantity - m.quantity * itemQty < 0 then
      .error (.insufficientMaterial m.name)
    else
      match deductMaterialSizes m itemQty rest with
      | .error e => .error e
      | .ok rest' => .ok ({ size with quantity := size.quantity - m.quantity * itemQty } :: rest')

/-- The `materialLogEntry` record built per material decrement (index.ts
lines 475-484). -/
def mkMaterialLog (now orderId : String) (itemQty : Int) (m : Material)
    (materialProduct : Product) (materialSizes : List SizeOption) : StockLogEntry :=
  { date := now
    addedStock := -(m.quantity * itemQty)
    totalStockBefore := match materialProduct.sizes.head? with
      | some s => s.quantity
      | none => 0
    totalStockAfter := match materialSizes.head? with
      | some s => s.quantity
      | none => 0
    notes := "Deducción por orden " ++ orderId
    productId := m.uid
    productName := m.name
    sizeName := match materialProduct.sizes.head? with
      | some s => if s.name = "" then "Default" else s.name
      | none => "Default" }

/-- A staged `transaction.update(ref, { sizes, totalQuantity })` against an
inventory document (index.ts lines 456, 473, 490-495). -/
structure DocUpdate where
  docId : String
  sizes : List SizeOption
  totalQuantity : Int
deriving DecidableEq, Repr

/-- Apply one staged update: overwrite the `sizes` and `totalQuantity` fields
of the targeted inventory document. -/
def applyUpdate (inv : List (String × Product)) (u : DocUpdate) :
    List (String × Product) :=
  inv.map (fun kv =>
    if kv.1 = u.docId then
      (kv.1, { kv.2 with sizes := u.sizes, totalQuantity := some u.totalQuantity })
    else kv)

/-- The inner material loop of the order transaction (index.ts lines 458-486):
per material, read the material product (from the pre-transaction store, as
Firestore transaction reads precede all staged writes), deduct stock, and
stage one update and one log entry. -/
def processMaterials (store : Store) (now orderId : String) (itemQty : Int) :
    List Material → Except Err (List DocUpdate × List StockLogEntry)
  | [] => .ok ([], [])
  | m :: rest =>
    match findDoc store.inventory m.uid with
    | none => .error (.materialNotFound m.uid)
    | some materialProduct =>
      match deductMaterialSizes m itemQty materialProduct.sizes with
      | .error e => .error e
      | .ok materialSizes =>
        match processMaterials store now orderId itemQty rest with
        | .error e => .error e
        | .ok (us, logs) =>
          .ok (⟨m.uid, materialSizes, sumQuantities materialSizes⟩ :: us,
               mkMaterialLog now orderId itemQty m materialProduct materialSizes :: logs)

/-- The outer item loop of the order transaction (index.ts lines 433-487):
read each product, validate and decrement the named variant, then process its
materials; returns the staged product updates, material updates and log
entries in push order. -/
def processItems (store : Store) (now orderId : String) :
    List OrderItem → Except Err (List DocUpdate × List DocUpdate × List StockLogEntry)
  | [] => .ok ([], [], [])
  | item :: rest =>
    match findDoc store.inventory item.productId with
    | none => .error (.productNotFound item.productId)
    | some product =>
      match updateOrderSizes item product.sizes with
      | .error e => .error e
      | .ok (updatedSizes, sizeFound) =>
        if sizeFound then
          match processMaterials store now orderId item.quantity item.materials with
          | .error e => .error e
          | .ok (mUpdates, logs) =>
            match processItems store now orderId rest with
            | .error e => .error e
            | .ok (pRest, mRest, logsRest) =>
              .ok (⟨item.productId, updatedSizes, sumQuantities updatedSizes⟩ :: pRest,
                   mUpdates ++ mRest, logs ++ logsRest)
        else .error (.variantNotFound item.name)

/-- The aggregate `productionCost` computed for the order document
(index.ts lines 402-407). -/
def orderProductionCost (items : List OrderItem) : Int :=
  items.foldl
    (fun totalCost item =>
      totalCost + item.materials.foldl
        (fun sum material =>
          sum + material.cost * (if material.quantity > 0 then material.quantity else 1)
            * item.quantity)
        0)
    0

/-- Spec-side aggregate order cost (spec §4.2 step 4): sum over items of the
per-variant cost formula times the item quantity. -/
def specOrderProductionCost (items : List OrderItem) : Int :=
  (items.map (fun item => specVariantCost item.materials * item.quantity)).sum

/-- The customer existence check at the head of the order transaction
(index.ts lines 424-431). -/
def checkCustomer (store : Store) (customerId : Option String) : Except Err Unit :=
  match customerId with
  | none => .ok ()
  | some cid =>
    match findDoc store.customers cid with
    | none => .error (.customerNotFound cid)
    | some _ => .ok ()

/-- The `ordersCount` increment staged for a referenced customer
(index.ts lines 499-503). -/
def incrementCustomer (customers : List (String × Customer)) :
    Option String → List (String × Customer)
  | none => customers
  | some cid =>
    customers.map (fun kv =>
      if kv.1 = cid then (kv.1, { kv.2 with ordersCount := kv.2.ordersCount + 1 }) else kv)

/-- The `POST /orders` transaction body (index.ts lines 419-504): all reads
and validations run against the pre-transaction store; on success the staged
order write, product updates, material updates, stock logs and customer
increment are committed atomically, in push order. -/
def placeOrderTx (store : Store) (now orderId : String) (items : List OrderItem)
    (paymentMethod : String) (total : Int) (customerId : Option String) :
    Except Err Store :=
  match checkCustomer store customerId with
  | .error e => .error e
  | .ok _ =>
    match processItems store now orderId items with
    | .error e => .error e
    | .ok (productUpdates, materialUpdates, logs) =>
      let orderData : OrderDoc :=
        { items := items
          paymentMethod := paymentMethod
          total := total
          productionCost := orderProductionCost items
          customerId := customerId
          date := now }
      .ok { inventory := (productUpdates ++ materialUpdates).foldl applyUpdate store.inventory
            customers := incrementCustomer store.customers customerId
            orders := store.orders ++ [(orderId, orderData)]
            stockLogs := store.stockLogs ++ logs }

/-- The possible outcomes of the `POST /orders` handler. -/
inductive PlaceOrderResult where
  | validationError
  | txError (e : Err)
  | success (orderId : String)
deriving DecidableEq, Repr

/-- The `POST /orders` handler (index.ts lines 394-513): the truthiness
validation `!items || !paymentMethod || total === undefined` (an absent or
empty-string `paymentMethod` is falsy; an empty `items` array is truthy),
then the transaction; a transaction error returns 400 with the store
untouched. -/
def placeOrder (store : Store) (now orderId : String)
    (items : Option (List OrderItem)) (paymentMethod : Option String)
    (total : Option Int) (customerId : Option String) : Store × PlaceOrderResult :=
  match items, paymentMethod, total with
  | some items, some pm, some total =>
    if pm = "" then (store, .validationError)
    else
      match placeOrderTx store now orderId items pm total customerId with
      | .error e => (store, .txError e)
      | .ok store' => (store', .success orderId)
  | _, _, _ => (store, .validationError)

/-- Spec-side stock-log entry for one material decrement (claim C6 / spec
§4.2 step 5): `stockBefore`/`stockAfter` are the first variant of the
material product before and after the deduction, defaulting to 0 when the
material product has no variants. -/
def specMaterialLog (store : Store) (now orderId : String) (itemQty : Int)
    (m : Material) : StockLogEntry :=
  let sizes : List SizeOption :=
    match findDoc store.inventory m.uid with
    | some mp => mp.sizes
    | none => []
  { date := now
    addedStock := -(m.quantity * itemQty)
    totalStockBefore := match sizes.head? with
      | some s => s.quantity
      | none => 0
    totalStockAfter := match sizes.head? with
      | some s => s.quantity - m.quantity * itemQty
      | none => 0
    notes := "Deducción por orden " ++ orderId
    productId := m.uid
    productName := m.name
    sizeName := match sizes.head? with
      | some s => if s.name = "" then "Default" else s.name
      | none => "Default" }

/-- Outcomes of the `PATCH /products/:id/stock` handler. -/
inductive AdjustOutcome where
  | badRequest
  | productNotFound
  | sizeNotFound
  | stockError (msg : String)
  | ok
deriving DecidableEq, Repr

/-- The size walk of `PATCH /products/:id/stock` (index.ts lines 329-341):
the matching size gets `quantity + quantityDelta` (throwing on a negative
result) and its `productionCost`/`profit` recomputed as
`Σ cost * quantity` — without the `quantity > 0 ? quantity : 1` guard used at
product creation. -/
def adjustSizes (sizeName : String) (quantityDelta : Int) :
    List SizeOption → Except String (List SizeOption × Bool)
  | [] => .ok ([], false)
  | size :: rest =>
    if size.name = sizeName then
      if size.quantity + quantityDelta < 0 then
        .error ("Stock negativo no permitido para el tamaño " ++ sizeName)
      else
        let prodCost := size.materials.foldl (fun sum m => sum + m.cost * m.quantity) 0
        match adjustSizes sizeName quantityDelta rest with
        | .error e => .error e
        | .ok (rest', _) =>
          .ok ({ size with
                  quantity := size.quantity + quantityDelta
                  productionCost := some prodCost
                  profit := some (size.price - prodCost) } :: rest', true)
    else
      match adjustSizes sizeName quantityDelta rest with
      | .error e => .error e
      | .ok (rest', found) => .ok (size :: rest', found)

/-- The `PATCH /products/:id/stock` handler (index.ts lines 314-361):
truthiness check on `sizeName`, product lookup, size walk, `sizeFound` check,
then the `sizes` update and one stock-log append. -/
def adjustStock (store : Store) (now : String) (id : String)
    (sizeName : Option String) (quantityDelta : Int) (notes : Option String) :
    Store × AdjustOutcome :=
  match sizeName with
  | none => (store, .badRequest)
  | some sn =>
    if sn = "" then (store, .badRequest)
    else
      match findDoc store.inventory id with
      | none => (store, .productNotFound)
      | some productData =>
        match adjustSizes sn quantityDelta productData.sizes with
        | .error msg => (store, .stockError msg)
        | .ok (updatedSizes, sizeFound) =>
          if sizeFound then
            let logEntry : StockLogEntry :=
              { date := now
                addedStock := quantityDelta
                totalStockBefore := match productData.sizes.find? (fun s => s.name = sn) with
                  | some s => s.quantity
                  | none => 0
                totalStockAfter := match updatedSizes.find? (fun s => s.name = sn) with
                  | some s => s.quantity
                  | none => 0
                notes := notes.getD ""
                productId := id
                productName := productData.name
                sizeName := sn }
            ({ store with
                inventory := store.inventory.map (fun kv =>
                  if kv.1 = id then (kv.1, { kv.2 with sizes := updatedSizes }) else kv)
                stockLogs := store.stockLogs ++ [logEntry] },
             .ok)
          else (store, .sizeNotFound)

/-- Phase 1 of the `PATCH /categories/positions` transaction (index.ts lines
589-604): per assignment, read the category from the pre-transaction store
(throwing `Categoría no encontrada` when absent) and stage a merge-set of its
data with the new position. -/
def applyAssignments (cats : List (String × Category)) :
    List (String × Category) → List (String × Int) → Except String (List (String × Category))
  | acc, [] => .ok acc
  | acc, (id, pos) :: rest =>
    match findDoc cats id with
    | none => .error ("Categoría no encontrada: " ++ id)
    | some currentData =>
      applyAssignments cats (setDoc acc id { currentData with position := some pos }) rest

/-- Phase 2 of the `PATCH /categories/positions` transaction (index.ts lines
605-620): every snapshot category absent from the assignments is staged with
the shared fallback position `categories.length`. -/
def applyFallback (assignments : List (String × Int)) :
    List (String × Category) → List (String × Category) → List (String × Category)
  | [], acc => acc
  | (id, c) :: rest, acc =>
    if assignments.any (fun a => a.1 = id) then applyFallback assignments rest acc
    else
      applyFallback assignments rest
        (setDoc acc id { c with position := some (assignments.length : Int) })

/-- The `PATCH /categories/positions` transaction body (index.ts lines
588-621): phase 1 over the assignments, then phase 2 over the snapshot of
existing categories. -/
def reorderCategoriesTx (cats : List (String × Category))
    (assignments : List (String × Int)) : Except String (List (String × Category)) :=
  match applyAssignments cats cats assignments with
  | .error e => .error e
  | .ok afterAssigned => .ok (applyFallback assignments cats afterAssigned)

/-- Outcomes of the `PATCH /categories/positions` handler. -/
inductive ReorderResult where
  | badRequest
  | serverError (msg : String)
  | success (cats : List (String × Category))
deriving DecidableEq, Repr

/-- The `PATCH /categories/positions` handler (index.ts lines 569-628):
input validation (non-empty array, each entry with a truthy id), then the
transaction. -/
def reorderCategories (cats : List (String × Category))
    (assignments : List (String × Int)) : ReorderResult :=
  if assignments.isEmpty then .badRequest
  else if assignments.any (fun a => a.1 = "") then .badRequest
  else
    match reorderCategoriesTx cats assignments with
    | .error e => .serverError e
    | .ok r => .success r

/-- Spec-side position invariant (claim C7 / spec §3): the positions of the
stored categories are exactly `0 .. N-1`, each defined, with no duplicates. -/
def densePositions (cats : List (String × Category)) : Prop :=
  (cats.map (fun kv => kv.2.position)).Perm
    ((List.range cats.length).map (fun i => some (i : Int)))

/-- Decidable form of the transaction precondition "the referenced customer
exists" (index.ts lines 424-431). -/
def customerOkB (store : Store) : Option String → Bool
  | none => true
  | some cid => (findDoc store.customers cid).isSome

/-- Decidable form of "the item's product exists and carries a size with the
item's name". -/
def itemVariantOkB (store : Store) (item : OrderItem) : Bool :=
  match findDoc store.inventory item.productId with
  | none => false
  | some p => p.sizes.any (fun s => s.name == item.name)

/-- Decidable form of "every material referenced by the item resolves to an
inventory document". -/
def itemMaterialsOkB (store : Store) (item : OrderItem) : Bool :=
  item.materials.all (fun m => (findDoc store.inventory m.uid).isSome)

/-- Decidable form of "the item's product has a size with the item's name
whose on-hand quantity is below the requested quantity". -/
def itemInsufficientB (store : Store) (item : OrderItem) : Bool :=
  match findDoc store.inventory item.productId with
  | none => false
  | some p => p.sizes.any (fun s => s.name == item.name && decide (s.quantity < item.quantity))

/-- Fixture: the material snapshot sent with the sample order item. -/
def sampleMaterial : Material := { uid := "mat", name := "Maiz", cost := 2, quantity := 1 }

/-- Fixture: a finished-good product with one variant of 5 on hand. -/
def sampleFinished : Product :=
  { name := "Elote", categoryId := "cat-food",
    sizes := [{ name := "Chico", price := 10, quantity := 5, materials := [sampleMaterial] }] }

/-- Fixture: the material product, carrying two variants (10 and 7 on hand). -/
def sampleMaterialProduct : Product :=
  { name := "Maiz", categoryId := "bsOZn7qdIizNleZ41Xs2",
    sizes := [{ name := "A", price := 0, quantity := 10, materials := [] },
              { name := "B", price := 0, quantity := 7, materials := [] }] }

/-- Fixture: a store with the two products above and one customer. -/
def sampleStore : Store :=
  { inventory := [("prod", sampleFinished), ("mat", sampleMaterialProduct)],
    customers := [("cust", { name := "Ana", phoneNumber := "1234567890", ordersCount := 3 })],
    orders := [], stockLogs := [] }

/-- Fixture: an order item for 2 units of the sample variant. -/
def sampleItem : OrderItem :=
  { productId := "prod", name := "Chico", price := 10, quantity := 2, subtotal := 20,
    materials := [sampleMaterial] }

/-- Fixture: the same item requesting more units than the 5 on hand. -/
def greedyItem : OrderItem := { sampleItem with quantity := 6 }

/-- Fixture: a material with `quantityPerUse = 0`. -/
def zeroMaterial : Material := { uid := "mat", name := "Maiz", cost := 5, quantity := 0 }

/-- Fixture: a material with a negative `quantityPerUse`. -/
def negMaterial : Material := { uid := "mat", name := "Maiz", cost := 5, quantity := -2 }

/-- Fixture: an order item whose single material has `quantityPerUse = 0`. -/
def zeroItem : OrderItem := { sampleItem with materials := [zeroMaterial] }

/-- Fixture: an empty store. -/
def emptyStore : Store := { inventory := [], customers := [], orders := [], stockLogs := [] }

/-- Fixture: a product for the stock-adjustment scenario, one variant holding
5 on hand with one material of cost 2 and quantity-per-use 3. -/
def adjustProduct : Product :=
  { name := "Esquite", categoryId := "cat-food",
    sizes := [{ name := "Unico", price := 10, quantity := 5,
                materials := [{ uid := "m1", name := "Maiz", cost := 2, quantity := 3 }] }] }

/-- Fixture: the store for the stock-adjustment scenario. -/
def adjustStore : Store :=
  { inventory := [("p", adjustProduct)], customers := [], orders := [], stockLogs := [] }

/-- Fixture: three categories at positions 0, 1, 2. -/
def sampleCats : List (String × Category) :=
  [("A", { name := "A", image := "", position := some 0 }),
   ("B", { name := "B", image := "", position := some 1 }),
   ("C", { name := "C", image := "", position := some 2 })]

/-- The position assigned by the *last* occurrence of `id` in the assignment
list (staged merge-sets overwrite earlier ones for the same document). -/
def lastAssign (id : String) : List (String × Int) → Option Int
  | [] => none
  | (aid, p) :: rest =>
    match lastAssign id rest with
    | some q => some q
    | none => if aid = id then some p else none

/-- Fixture: the categories after reordering `sampleCats` with the colliding
assignments `[(A, 0), (B, 0)]`. -/
def reorderedCats : List (String × Category) :=
  [("A", { name := "A", image := "", position := some 0 }),
   ("B", { name := "B", image := "", position := some 0 }),
   ("C", { name := "C", image := "", position := some 2 })]

/-- Fixture: the categories after reordering `sampleCats` with the spec's
example assignments `[(A, 1), (B, 0)]`. -/
def reorderedExample : List (String × Category) :=
  [("A", { name := "A", image := "", position := some 1 }),
   ("B", { name := "B", image := "", position := some 0 }),
   ("C", { name := "C", image := "", position := some 2 })]

/-- Spec-side expected position after a reorder (claim C8): the id's
assigned position when listed, else the shared fallback `len(assignments)`. -/
def assignedPosition (as : List (String × Int)) (id : String) : Int :=
  ((as.find? (fun a => a.1 = id)).map (fun a => a.2)).getD (as.length : Int)

/-- The truthiness guard `quantity > 0 ? quantity : 1` agrees with
`max quantity 1` on integers. -/
lemma ite_pos_eq_max (q : Int) : (if q > 0 then q else 1) = max q 1 := by
  split <;> omega

lemma foldl_cost_guard (ms : List Material) (a : Int) :
    ms.foldl
      (fun sum material =>
        sum + material.cost * (if material.quantity > 0 then material.quantity else 1))
      a = a + specVariantCost ms := by
  induction ms generalizing a with
  | nil => simp [specVariantCost]
  | cons m rest ih =>
    rw [List.foldl_cons, ih]
    simp only [specVariantCost, List.map_cons, List.sum_cons, ite_pos_eq_max]
    ring

lemma deductMaterialSizes_ok (m : Material) (itemQty : Int)
    (sizes sizes' : List SizeOption)
    (h : deductMaterialSizes m itemQty sizes = .ok sizes') :
    sizes' = sizes.map (fun s => { s with quantity := s.quantity - m.quantity * itemQty }) := by
  induction sizes generalizing sizes' with
  | nil =>
    simp only [deductMaterialSizes, Except.ok.injEq] at h
    simp [← h]
  | cons s rest ih =>
    simp only [deductMaterialSizes] at h
    split at h
    · simp at h
    · cases hr : deductMaterialSizes m itemQty rest with
      | error e => rw [hr] at h; simp at h
      | ok rest' =>
        rw [hr] at h
        simp only [Except.ok.injEq] at h
        simp [← h, ih rest' hr]

lemma deductMaterialSizes_ok_nonneg (m : Material) (itemQty : Int)
    (sizes sizes' : List SizeOption)
    (h : deductMaterialSizes m itemQty sizes = .ok sizes') :
    ∀ s ∈ sizes, 0 ≤ s.quantity - m.quantity * itemQty := by
  induction sizes generalizing sizes' with
  | nil => simp
  | cons s rest ih =>
    simp only [deductMaterialSizes] at h
    split at h
    · simp at h
    · cases hr : deductMaterialSizes m itemQty rest with
      | error e => rw [hr] at h; simp at h
      | ok rest' =>
        rename_i hnn
        intro x hx
        rcases List.mem_cons.mp hx with rfl | hx
        · omega
        · exact ih rest' hr x hx

lemma deductMaterialSizes_error_of_neg (m : Material) (itemQty : Int)
    (sizes : List SizeOption)
    (h : ∃ s ∈ sizes, s.quantity - m.quantity * itemQty < 0) :
    deductMaterialSizes m itemQty sizes = .error (.insufficientMaterial m.name) := by
  induction sizes with
  | nil => simp at h
  | cons s rest ih =>
    rcases h with ⟨x, hx, hneg⟩
    rcases List.mem_cons.mp hx with rfl | hx
    · simp only [deductMaterialSizes]
      rw [if_pos hneg]
    · simp only [deductMaterialSizes]
      split
      · rfl
      · rw [ih ⟨x, hx, hneg⟩]

lemma deductMaterialSizes_error (m : Material) (itemQty : Int)
    (sizes : List SizeOption) (e : Err)
    (h : deductMaterialSizes m itemQty sizes = .error e) :
    e = .insufficientMaterial m.name := by
  induction sizes with
  | nil => simp [deductMaterialSizes] at h
  | cons s rest ih =>
    simp only [deductMaterialSizes] at h
    split at h
    · simp only [Except.error.injEq] at h
      exact h.symm
    · cases hr : deductMaterialSizes m itemQty rest with
      | error e' =>
        rw [hr] at h
        simp only [Except.error.injEq] at h
        rw [h] at hr
        exact ih hr
      | ok rest' => rw [hr] at h; simp at h

lemma updateOrderSizes_error (item : OrderItem) (sizes : List SizeOption) (e : Err)
    (h : updateOrderSizes item sizes = .error e) :
    e = .insufficientStock item.name := by
  induction sizes with
  | nil => simp [updateOrderSizes] at h
  | cons s rest ih =>
    simp only [updateOrderSizes] at h
    split at h
    · split at h
      · simp only [Except.error.injEq] at h
        exact h.symm
      · cases hr : updateOrderSizes item rest with
        | error e' =>
          rw [hr] at h
          simp only [Except.error.injEq] at h
          rw [h] at hr
          exact ih hr
        | ok p => rw [hr] at h; simp at h
    · cases hr : updateOrderSizes item rest with
      | error e' =>
        rw [hr] at h
        simp only [Except.error.injEq] at h
        rw [h] at hr
        exact ih hr
      | ok p => rw [hr] at h; simp at h

lemma updateOrderSizes_insufficient (item : OrderItem) (sizes : List SizeOption)
    (h : ∃ s ∈ sizes, s.name = item.name ∧ s.quantity < item.quantity) :
    updateOrderSizes item sizes = .error (.insufficientStock item.name) := by
  induction sizes with
  | nil => simp at h
  | cons s rest ih =>
    rcases h with ⟨x, hx, hname, hlt⟩
    rcases List.mem_cons.mp hx with rfl | hx
    · simp only [updateOrderSizes, if_pos hname, if_pos hlt]
    · simp only [updateOrderSizes]
      split
      · split
        · rfl
        · rw [ih ⟨x, hx, hname, hlt⟩]
      · rw [ih ⟨x, hx, hname, hlt⟩]

lemma updateOrderSizes_ok_found (item : OrderItem) (sizes : List SizeOption)
    (sizes' : List SizeOption) (found : Bool)
    (h : updateOrderSizes item sizes = .ok (sizes', found)) :
    found = true ↔ ∃ s ∈ sizes, s.name = item.name := by
  induction sizes generalizing sizes' found with
  | nil =>
    simp only [updateOrderSizes, Except.ok.injEq, Prod.mk.injEq] at h
    simp [← h.2]
  | cons s rest ih =>
    simp only [updateOrderSizes] at h
    split at h
    · rename_i hname
      split at h
      · simp at h
      · cases hr : updateOrderSizes item rest with
        | error e => rw [hr] at h; simp at h
        | ok p =>
          rw [hr] at h
          simp only [Except.ok.injEq, Prod.mk.injEq] at h
          simp [← h.2, hname]
    · rename_i hname
      cases hr : updateOrderSizes item rest with
      | error e => rw [hr] at h; simp at h
      | ok p =>
        rw [hr] at h
        simp only [Except.ok.injEq, Prod.mk.injEq] at h
        rw [← h.2, ih p.1 p.2 (by rw [hr])]
        simp [hname]

lemma foldl_item_cost (ms : List Material) (q a : Int) :
    ms.foldl
      (fun sum material =>
        sum + material.cost * (if material.quantity > 0 then material.quantity else 1) * q)
      a = a + specVariantCost ms * q := by
  induction ms generalizing a with
  | nil => simp [specVariantCost]
  | cons m rest ih =>
    rw [List.foldl_cons, ih]
    simp only [specVariantCost, List.map_cons, List.sum_cons, ite_pos_eq_max]
    ring

/-- The handler's aggregate cost fold agrees with the spec formula. -/
lemma orderProductionCost_eq_spec (items : List OrderItem) :
    orderProductionCost items = specOrderProductionCost items := by
  suffices h : ∀ b : Int, items.foldl
      (fun totalCost item =>
        totalCost + item.materials.foldl
          (fun sum material =>
            sum + material.cost * (if material.quantity > 0 then material.quantity else 1)
              * item.quantity)
          0)
      b = b + specOrderProductionCost items by
    simpa [orderProductionCost] using h 0
  induction items with
  | nil => intro b; simp [specOrderProductionCost]
  | cons item rest ih =>
    intro b
    rw [List.foldl_cons, ih, foldl_item_cost]
    simp only [specOrderProductionCost, List.map_cons, List.sum_cons]
    ring

lemma mkMaterialLog_eq_spec (store : Store) (now orderId : String) (itemQty : Int)
    (m : Material) (mp : Product) (msizes : List SizeOption)
    (hf : findDoc store.inventory m.uid = some mp)
    (hd : deductMaterialSizes m itemQty mp.sizes = .ok msizes) :
    mkMaterialLog now orderId itemQty m mp msizes
      = specMaterialLog store now orderId itemQty m := by
  have hms := deductMaterialSizes_ok _ _ _ _ hd
  subst hms
  simp only [mkMaterialLog, specMaterialLog, hf, List.head?_map]
  cases hs : mp.sizes with
  | nil => simp
  | cons s rest => simp

lemma processMaterials_ok_logs (store : Store) (now orderId : String) (itemQty : Int)
    (ms : List Material) (us : List DocUpdate) (logs : List StockLogEntry)
    (h : processMaterials store now orderId itemQty ms = .ok (us, logs)) :
    logs = ms.map (specMaterialLog store now orderId itemQty) := by
  induction ms generalizing us logs with
  | nil =>
    simp only [processMaterials, Except.ok.injEq, Prod.mk.injEq] at h
    simp [← h.2]
  | cons m rest ih =>
    simp only [processMaterials] at h
    split at h
    · simp at h
    · rename_i mp hf
      split at h
      · simp at h
      · rename_i msizes hd
        split at h
        · simp at h
        · rename_i us2 logs2 hrec
          simp only [Except.ok.injEq, Prod.mk.injEq] at h
          rw [← h.2, List.map_cons, ih us2 logs2 hrec,
            mkMaterialLog_eq_spec store now orderId itemQty m mp msizes hf hd]

lemma processMaterials_error (store : Store) (now orderId : String) (itemQty : Int)
    (ms : List Material) (e : Err)
    (hm : ∀ m ∈ ms, (findDoc store.inventory m.uid).isSome = true)
    (h : processMaterials store now orderId itemQty ms = .error e) :
    e.isInsufficient = true := by
  induction ms with
  | nil => simp [processMaterials] at h
  | cons m rest ih =>
    simp only [processMaterials] at h
    split at h
    · rename_i hf
      have hx := hm m (List.mem_cons_self m rest)
      rw [hf] at hx
      simp at hx
    · rename_i mp hf
      split at h
      · rename_i e' hd
        simp only [Except.error.injEq] at h
        rw [h] at hd
        rw [deductMaterialSizes_error m itemQty mp.sizes e hd]
        rfl
      · rename_i msizes hd
        split at h
        · rename_i e' hrec
          simp only [Except.error.injEq] at h
          rw [h] at hrec
          exact ih (fun x hx => hm x (List.mem_cons_of_mem m hx)) hrec
        · simp at h

lemma processItems_ok_logs (store : Store) (now orderId : String)
    (items : List OrderItem) (pu mu : List DocUpdate) (logs : List StockLogEntry)
    (h : processItems store now orderId items = .ok (pu, mu, logs)) :
    logs = (items.map (fun it =>
      it.materials.map (specMaterialLog store now orderId it.quantity))).flatten := by
  induction items generalizing pu mu logs with
  | nil =>
    simp only [processItems, Except.ok.injEq, Prod.mk.injEq] at h
    simp [← h.2.2]
  | cons item rest ih =>
    simp only [processItems] at h
    split at h
    · simp at h
    · rename_i product hf
      split at h
      · simp at h
      · rename_i us found hu
        split at h
        · split at h
          · simp at h
          · rename_i mUpds mLogs hpm
            split at h
            · simp at h
            · rename_i pRest mRest logsRest hrec
              simp only [Except.ok.injEq, Prod.mk.injEq] at h
              rw [← h.2.2, List.map_cons, List.flatten_cons,
                processMaterials_ok_logs store now orderId item.quantity item.materials
                  mUpds mLogs hpm,
                ih pRest mRest logsRest hrec]
        · simp at h

lemma processItems_insufficient (store : Store) (now orderId : String)
    (items : List OrderItem)
    (hp : ∀ item ∈ items, (findDoc store.inventory item.productId).isSome = true)
    (hv : ∀ item ∈ items, ∀ p, findDoc store.inventory item.productId = some p →
      ∃ s ∈ p.sizes, s.name = item.name)
    (hm : ∀ item ∈ items, ∀ m ∈ item.materials,
      (findDoc store.inventory m.uid).isSome = true)
    (hins : ∃ item ∈ items, ∃ p, findDoc store.inventory item.productId = some p ∧
      ∃ s ∈ p.sizes, s.name = item.name ∧ s.quantity < item.quantity) :
    ∃ e, processItems store now orderId items = .error e ∧ e.isInsufficient = true := by
  induction items with
  | nil => simp at hins
  | cons item rest ih =>
    cases hf : findDoc store.inventory item.productId with
    | none =>
      have hx := hp item (List.mem_cons_self item rest)
      rw [hf] at hx
      simp at hx
    | some product =>
      cases hu : updateOrderSizes item product.sizes with
      | error e =>
        have he := updateOrderSizes_error item product.sizes e hu
        subst he
        refine ⟨.insufficientStock item.name, ?_, rfl⟩
        simp [processItems, hf, hu]
      | ok p =>
        obtain ⟨us, found⟩ := p
        have hfound : found = true := by
          rw [updateOrderSizes_ok_found item product.sizes us found hu]
          exact hv item (List.mem_cons_self item rest) product hf
        subst hfound
        cases hpm : processMaterials store now orderId item.quantity item.materials with
        | error e =>
          refine ⟨e, ?_, processMaterials_error store now orderId item.quantity
            item.materials e (hm item (List.mem_cons_self item rest)) hpm⟩
          simp [processItems, hf, hu, hpm]
        | ok q =>
          have hrest : ∃ it ∈ rest, ∃ pr, findDoc store.inventory it.productId = some pr ∧
              ∃ s ∈ pr.sizes, s.name = it.name ∧ s.quantity < it.quantity := by
            rcases hins with ⟨it, hit, pr, hpr, hs⟩
            rcases List.mem_cons.mp hit with rfl | hit
            · rw [hf] at hpr
              injection hpr with hpr
              subst hpr
              have := updateOrderSizes_insufficient it product.sizes hs
              rw [this] at hu
              exact absurd hu (by simp)
            · exact ⟨it, hit, pr, hpr, hs⟩
          obtain ⟨e, heq, hie⟩ := ih
            (fun x hx => hp x (List.mem_cons_of_mem item hx))
            (fun x hx => hv x (List.mem_cons_of_mem item hx))
            (fun x hx => hm x (List.mem_cons_of_mem item hx))
            hrest
          refine ⟨e, ?_, hie⟩
          simp [processItems, hf, hu, hpm, heq]

lemma customerOkB_check (store : Store) (customerId : Option String)
    (h : customerOkB store customerId = true) :
    checkCustomer store customerId = .ok () := by
  cases customerId with
  | none => rfl
  | some cid =>
    simp only [customerOkB] at h
    simp only [checkCustomer]
    cases hf : findDoc store.customers cid with
    | none => rw [hf] at h; simp at h
    | some c => simp [hf]

lemma itemVariantOkB_spec (store : Store) (item : OrderItem)
    (h : itemVariantOkB store item = true) :
    (findDoc store.inventory item.productId).isSome = true ∧
    ∀ p, findDoc store.inventory item.productId = some p →
      ∃ s ∈ p.sizes, s.name = item.name := by
  unfold itemVariantOkB at h
  split at h
  · simp at h
  · rename_i p hf
    refine ⟨by rw [hf]; rfl, ?_⟩
    intro p' hp'
    rw [hf] at hp'
    injection hp' with hpp
    subst hpp
    simpa [List.any_eq_true] using h

lemma itemMaterialsOkB_spec (store : Store) (item : OrderItem)
    (h : itemMaterialsOkB store item = true) :
    ∀ m ∈ item.materials, (findDoc store.inventory m.uid).isSome = true := by
  unfold itemMaterialsOkB at h
  simpa [List.all_eq_true] using h

lemma itemInsufficientB_spec (store : Store) (item : OrderItem)
    (h : itemInsufficientB store item = true) :
    ∃ p, findDoc store.inventory item.productId = some p ∧
      ∃ s ∈ p.sizes, s.name = item.name ∧ s.quantity < item.quantity := by
  unfold itemInsufficientB at h
  split at h
  · simp at h
  · rename_i p hf
    refine ⟨p, hf, ?_⟩
    simpa [List.any_eq_true] using h

/-- C3: for every variant processed at product creation (`POST /products`) or
update (`PUT /products/:id`), the stored `productionCost` is the sum over its
materials of `unitCost * max(quantityPerUse, 1)` — a material with
`quantityPerUse ≤ 0` contributes as if its quantity were 1 — and the stored
`profit` is `unitPrice - productionCost`. -/
theorem claim3_creation_cost_formula (sizes : List SizeOption) :
    processedSizes sizes = sizes.map (fun s =>
      { s with productionCost := some (specVariantCost s.materials),
               profit := some (s.price - specVariantCost s.materials) }) := by
  unfold processedSizes
  induction sizes with
  | nil => rfl
  | cons s rest ih =>
    simp only [List.map_cons, foldl_cost_guard, List.cons.injEq] at *
    exact ⟨by norm_num, ih⟩

/-- C1: an order containing an item whose named variant holds fewer units
than requested makes `placeOrder` fail with an insufficient-stock error, and
the whole transaction aborts: the returned store is the input store, so no
Product, material Product, Order, StockLogEntry or Customer document is
modified.  (The resolvability hypotheses pin the failure to the stock check
rather than a missing-document `NotFound`.) -/
theorem claim1_insufficient_stock_aborts (store : Store) (now orderId : String)
    (items : List OrderItem) (pm : String) (total : Int) (customerId : Option String)
    (hpm : pm ≠ "")
    (hc : customerOkB store customerId = true)
    (hv : items.all (itemVariantOkB store) = true)
    (hm : items.all (itemMaterialsOkB store) = true)
    (hins : items.any (itemInsufficientB store) = true) :
    ∃ e, placeOrder store now orderId (some items) (some pm) (some total) customerId
        = (store, .txError e) ∧ e.isInsufficient = true := by
  have hv' := List.all_eq_true.mp hv
  have hm' := List.all_eq_true.mp hm
  obtain ⟨badItem, hbad, hbadB⟩ := List.any_eq_true.mp hins
  obtain ⟨e, heq, hie⟩ := processItems_insufficient store now orderId items
    (fun item hit => (itemVariantOkB_spec store item (hv' item hit)).1)
    (fun item hit => (itemVariantOkB_spec store item (hv' item hit)).2)
    (fun item hit => itemMaterialsOkB_spec store item (hm' item hit))
    ⟨badItem, hbad, itemInsufficientB_spec store badItem hbadB⟩
  refine ⟨e, ?_, hie⟩
  simp [placeOrder, hpm, placeOrderTx, customerOkB_check store customerId hc, heq]

/-- C1 witness: a concrete order of 6 units against a variant holding 5
fails with an insufficient-stock error and leaves the store untouched. -/
theorem claim1_witness :
    ∃ e, placeOrder sampleStore "t0" "o1" (some [greedyItem]) (some "efectivo")
        (some 20) (some "cust") = (sampleStore, .txError e) ∧ e.isInsufficient = true :=
  claim1_insufficient_stock_aborts sampleStore "t0" "o1" [greedyItem] "efectivo" 20
    (some "cust") (by decide) (by decide) (by decide) (by decide) (by decide)

/-- C4: every accepted order writes exactly one Order document whose
aggregate `productionCost` is the sum over items of the per-item material
cost `Σ unitCost * max(quantityPerUse, 1)` times the item quantity. -/
theorem claim4_order_production_cost (store : Store) (now orderId : String)
    (items : List OrderItem) (paymentMethod : String) (total : Int)
    (customerId : Option String) (store' : Store)
    (h : placeOrderTx store now orderId items paymentMethod total customerId = .ok store') :
    store'.orders = store.orders ++ [(orderId,
      { items := items, paymentMethod := paymentMethod, total := total,
        productionCost := specOrderProductionCost items,
        customerId := customerId, date := now })] := by
  unfold placeOrderTx at h
  split at h
  · simp at h
  · split at h
    · simp at h
    · rename_i pu mu logs hpi
      simp only [Except.ok.injEq] at h
      rw [← h]
      simp [orderProductionCost_eq_spec]

/-- C4 witness: the sample one-item order is accepted and its stored order
document carries the spec-side aggregate production cost. -/
theorem claim4_witness :
    ((placeOrderTx sampleStore "t0" "o1" [sampleItem] "efectivo" 20 none).toOption.getD
        default).orders
      = sampleStore.orders ++ [("o1",
        { items := [sampleItem], paymentMethod := "efectivo", total := 20,
          productionCost := specOrderProductionCost [sampleItem],
          customerId := none, date := "t0" })] :=
  claim4_order_production_cost sampleStore "t0" "o1" [sampleItem] "efectivo" 20 none _
    (by rfl)

/-- C6: every successful order appends exactly one StockLogEntry per
(item, material) pair — none for finished-good variant decrements — and each
entry's `stockBefore`/`stockAfter` are the first variant of the material
product before and after the deduction. -/
theorem claim6_material_logs (store : Store) (now orderId : String)
    (items : List OrderItem) (paymentMethod : String) (total : Int)
    (customerId : Option String) (store' : Store)
    (h : placeOrderTx store now orderId items paymentMethod total customerId = .ok store') :
    store'.stockLogs = store.stockLogs ++
      (items.map (fun it =>
        it.materials.map (specMaterialLog store now orderId it.quantity))).flatten := by
  unfold placeOrderTx at h
  split at h
  · simp at h
  · split at h
    · simp at h
    · rename_i pu mu logs hpi
      simp only [Except.ok.injEq] at h
      rw [← h]
      simp [processItems_ok_logs store now orderId items pu mu logs hpi]

/-- C6 witness: the sample order appends exactly the one spec-side log entry
of its single (item, material) pair. -/
theorem claim6_witness :
    ((placeOrderTx sampleStore "t0" "o1" [sampleItem] "efectivo" 20 none).toOption.getD
        default).stockLogs
      = sampleStore.stockLogs ++
        ([sampleItem].map (fun it =>
          it.materials.map (specMaterialLog sampleStore "t0" "o1" it.quantity))).flatten :=
  claim6_material_logs sampleStore "t0" "o1" [sampleItem] "efectivo" 20 none _ (by rfl)

/-- C2 counterexample: the claim says only the material product's *first*
variant is decremented and "other variants of the material product keep
their quantityOnHand unchanged".  On the sample order (2 units, one material
with quantityPerUse 1) the material product's variants go from [10, 7] to
[8, 5]: the second variant is decremented as well, refuting the claim. -/
theorem claim2_counterexample :
    (placeOrderTx sampleStore "t0" "o1" [sampleItem] "efectivo" 20 none).isOk = true ∧
    ((findDoc sampleStore.inventory "mat").getD default).sizes.map (fun s => s.quantity)
      = [10, 7] ∧
    ((findDoc ((placeOrderTx sampleStore "t0" "o1" [sampleItem] "efectivo" 20
        none).toOption.getD default).inventory "mat").getD default).sizes.map
          (fun s => s.quantity)
      = [8, 5] := by
  refine ⟨rfl, rfl, rfl⟩

/-- C2 (amended): the material-deduction step of `placeOrder` decrements
*every* StockVariant of the material product by
`materialQuantityPerUse * item.quantity`, failing with the
material-insufficient-stock error as soon as any variant's quantity would go
negative. -/
theorem claim2_material_deduction_all_variants (m : Material) (itemQty : Int)
    (sizes sizes' : List SizeOption) :
    (deductMaterialSizes m itemQty sizes = .ok sizes' →
      sizes' = sizes.map (fun s => { s with quantity := s.quantity - m.quantity * itemQty }) ∧
      ∀ s ∈ sizes, 0 ≤ s.quantity - m.quantity * itemQty) ∧
    ((∃ s ∈ sizes, s.quantity - m.quantity * itemQty < 0) →
      deductMaterialSizes m itemQty sizes = .error (.insufficientMaterial m.name)) :=
  ⟨fun h => ⟨deductMaterialSizes_ok m itemQty sizes sizes' h,
    deductMaterialSizes_ok_nonneg m itemQty sizes sizes' h⟩,
   fun h => deductMaterialSizes_error_of_neg m itemQty sizes h⟩

/-- C2 witness: on the two-variant material product, a deduction of 2 units
rewrites both variants (10 → 8 and 7 → 5), and a material demanding 20 units
per order fails with the material-insufficient error. -/
theorem claim2_witness :
    ((deductMaterialSizes sampleMaterial 2 sampleMaterialProduct.sizes).toOption.getD []
        = sampleMaterialProduct.sizes.map
          (fun s => { s with quantity := s.quantity - sampleMaterial.quantity * 2 }) ∧
      ∀ s ∈ sampleMaterialProduct.sizes, 0 ≤ s.quantity - sampleMaterial.quantity * 2) ∧
    deductMaterialSizes { sampleMaterial with quantity := 10 } 2 sampleMaterialProduct.sizes
      = .error (.insufficientMaterial "Maiz") :=
  ⟨(claim2_material_deduction_all_variants sampleMaterial 2 sampleMaterialProduct.sizes
      _).1 (by rfl),
   (claim2_material_deduction_all_variants { sampleMaterial with quantity := 10 } 2
      sampleMaterialProduct.sizes []).2 (by decide)⟩

/-- C9: the material stock deduction applies no floor-to-1 guard, unlike the
cost computation: a material with `quantityPerUse = 0` leaves the material
product's stock unchanged while the order's `productionCost` counts it as
quantity 1 (`unitCost * item.quantity`), and a negative `quantityPerUse`
strictly increases every variant's stock. -/
theorem claim9_no_floor_in_material_deduction :
    (∀ (m : Material) (itemQty : Int) (sizes : List SizeOption),
      m.quantity = 0 → (∀ s ∈ sizes, 0 ≤ s.quantity) →
      deductMaterialSizes m itemQty sizes = .ok sizes) ∧
    (∀ (m : Material) (itemQty : Int) (sizes sizes' : List SizeOption),
      m.quantity < 0 → 0 < itemQty →
      deductMaterialSizes m itemQty sizes = .ok sizes' →
      sizes'.map (fun s => s.quantity)
        = sizes.map (fun s => s.quantity - m.quantity * itemQty) ∧
      ∀ s ∈ sizes, s.quantity < s.quantity - m.quantity * itemQty) ∧
    (∀ (item : OrderItem) (m : Material), item.materials = [m] → m.quantity = 0 →
      orderProductionCost [item] = m.cost * item.quantity) := by
  refine ⟨?_, ?_, ?_⟩
  · intro m itemQty sizes hm hnn
    induction sizes with
    | nil => rfl
    | cons s rest ih =>
      simp only [deductMaterialSizes, hm, zero_mul, sub_zero]
      rw [if_neg (not_lt.mpr (hnn s (List.mem_cons_self s rest))),
        ih (fun x hx => hnn x (List.mem_cons_of_mem s hx))]
  · intro m itemQty sizes sizes' hm hq h
    have hneg : m.quantity * itemQty < 0 := mul_neg_of_neg_of_pos hm hq
    have hok := deductMaterialSizes_ok m itemQty sizes sizes' h
    subst hok
    refine ⟨by simp, ?_⟩
    intro s _
    linarith
  · intro item m hmat hq
    simp [orderProductionCost, hmat, hq]

/-- C9 witness: deducting a zero-quantity material leaves the two-variant
stock [10, 7] unchanged while the order costs `5 * 2`; a material of
quantity −2 raises every variant's stock. -/
theorem claim9_witness :
    deductMaterialSizes zeroMaterial 3 sampleMaterialProduct.sizes
      = .ok sampleMaterialProduct.sizes ∧
    (((deductMaterialSizes negMaterial 1 sampleMaterialProduct.sizes).toOption.getD
          []).map (fun s => s.quantity)
        = sampleMaterialProduct.sizes.map (fun s => s.quantity - negMaterial.quantity * 1) ∧
      ∀ s ∈ sampleMaterialProduct.sizes,
        s.quantity < s.quantity - negMaterial.quantity * 1) ∧
    orderProductionCost [zeroItem] = zeroMaterial.cost * zeroItem.quantity :=
  ⟨claim9_no_floor_in_material_deduction.1 zeroMaterial 3 sampleMaterialProduct.sizes
      rfl (by decide),
   claim9_no_floor_in_material_deduction.2.1 negMaterial 1 sampleMaterialProduct.sizes _
      (by decide) (by decide) (by rfl),
   claim9_no_floor_in_material_deduction.2.2 zeroItem zeroMaterial rfl rfl⟩

/-- C10 counterexample: the claim's parenthetical "only absence of items,
paymentMethod, or total is rejected" is false — a *present* but empty-string
`paymentMethod` is falsy in `!paymentMethod` and is rejected too. -/
theorem claim10_counterexample :
    placeOrder emptyStore "t0" "o1" (some []) (some "") (some 0) none
      = (emptyStore, .validationError) := by rfl

/-- C10 (amended): an empty items array passes the truthiness validation
(absence of items, paymentMethod or total — or an empty-string
paymentMethod — is rejected) and the order succeeds: it writes one Order
document with `productionCost = 0` while modifying no Product and appending
no StockLogEntry. -/
theorem claim10_empty_order (store : Store) (now orderId pm : String) (total : Int)
    (hpm : pm ≠ "") :
    placeOrder store now orderId (some []) (some pm) (some total) none
      = ({ store with orders := store.orders ++ [(orderId,
          { items := [], paymentMethod := pm, total := total, productionCost := 0,
            customerId := none, date := now })] }, .success orderId) := by
  simp [placeOrder, hpm, placeOrderTx, checkCustomer, processItems, orderProductionCost,
    incrementCustomer]

/-- C10 witness: the empty order against the sample store leaves inventory
and logs untouched and records a cost-0 order. -/
theorem claim10_witness :
    placeOrder sampleStore "t0" "o1" (some []) (some "efectivo") (some 0) none
      = ({ sampleStore with orders := sampleStore.orders ++ [("o1",
          { items := [], paymentMethod := "efectivo", total := 0, productionCost := 0,
            customerId := none, date := "t0" })] }, .success "o1") :=
  claim10_empty_order sampleStore "t0" "o1" "efectivo" 0 (by decide)

lemma setDoc_cons {α : Type} (k : String) (w : α) (rest : List (String × α))
    (id : String) (v : α) :
    setDoc ((k, w) :: rest) id v
      = (if k = id then (k, v) else (k, w)) :: setDoc rest id v := by
  by_cases hk : k = id <;> simp [setDoc, hk]

lemma findDoc_cons {α : Type} (k : String) (v : α) (rest : List (String × α))
    (id : String) :
    findDoc ((k, v) :: rest) id = if k = id then some v else findDoc rest id := rfl

lemma findDoc_setDoc_self {α : Type} (l : List (String × α)) (id : String) (v : α)
    (h : (findDoc l id).isSome = true) :
    findDoc (setDoc l id v) id = some v := by
  induction l with
  | nil => simp [findDoc] at h
  | cons kv rest ih =>
    obtain ⟨k, w⟩ := kv
    rw [setDoc_cons]
    by_cases hk : k = id
    · rw [if_pos hk, findDoc_cons, if_pos hk]
    · rw [if_neg hk, findDoc_cons, if_neg hk]
      rw [findDoc_cons, if_neg hk] at h
      exact ih h

lemma findDoc_setDoc_ne {α : Type} (l : List (String × α)) (id id' : String) (v : α)
    (h : id' ≠ id) :
    findDoc (setDoc l id v) id' = findDoc l id' := by
  induction l with
  | nil => rfl
  | cons kv rest ih =>
    obtain ⟨k, w⟩ := kv
    rw [setDoc_cons]
    by_cases hk : k = id
    · have hk' : k ≠ id' := fun hki => h (hki ▸ hk.symm ▸ rfl)
      rw [if_pos hk, findDoc_cons, if_neg (hk ▸ fun hki => h hki.symm), findDoc_cons,
        if_neg hk']
      exact ih
    · rw [if_neg hk, findDoc_cons, findDoc_cons]
      by_cases hk' : k = id'
      · rw [if_pos hk', if_pos hk']
      · rw [if_neg hk', if_neg hk']
        exact ih

lemma setDoc_keys {α : Type} (l : List (String × α)) (id : String) (v : α) :
    (setDoc l id v).map Prod.fst = l.map Prod.fst := by
  induction l with
  | nil => rfl
  | cons kv rest ih =>
    obtain ⟨k, w⟩ := kv
    rw [setDoc_cons]
    by_cases hk : k = id
    · rw [if_pos hk]
      simp only [List.map_cons, ih]
    · rw [if_neg hk]
      simp only [List.map_cons, ih]

lemma findDoc_isSome_congr {α β : Type} (l : List (String × α)) (l' : List (String × β))
    (h : l.map Prod.fst = l'.map Prod.fst) (id : String) :
    (findDoc l id).isSome = (findDoc l' id).isSome := by
  induction l generalizing l' with
  | nil =>
    cases l' with
    | nil => rfl
    | cons kv rest => simp at h
  | cons kv rest ih =>
    cases l' with
    | nil => simp at h
    | cons kv' rest' =>
      obtain ⟨k, v⟩ := kv
      obtain ⟨k', v'⟩ := kv'
      simp only [List.map_cons, List.cons.injEq] at h
      obtain ⟨hk, hrest⟩ := h
      subst hk
      rw [findDoc_cons, findDoc_cons]
      by_cases hki : k = id
      · rw [if_pos hki, if_pos hki]
        rfl
      · rw [if_neg hki, if_neg hki]
        exact ih rest' hrest

lemma mapUpdate_cons {α : Type} (f : α → α) (k : String) (w : α)
    (rest : List (String × α)) (id : String) :
    ((k, w) :: rest).map (fun kv => if kv.1 = id then (kv.1, f kv.2) else kv)
      = (if k = id then (k, f w) else (k, w))
          :: rest.map (fun kv => if kv.1 = id then (kv.1, f kv.2) else kv) := by
  by_cases hk : k = id <;> simp [hk]

lemma findDoc_mapUpdate {α : Type} (l : List (String × α)) (id : String) (f : α → α) :
    findDoc (l.map (fun kv => if kv.1 = id then (kv.1, f kv.2) else kv)) id
      = (findDoc l id).map f := by
  induction l with
  | nil => rfl
  | cons kv rest ih =>
    obtain ⟨k, w⟩ := kv
    rw [mapUpdate_cons]
    by_cases hk : k = id
    · rw [if_pos hk, findDoc_cons, if_pos hk, findDoc_cons, if_pos hk]
      rfl
    · rw [if_neg hk, findDoc_cons, if_neg hk, findDoc_cons, if_neg hk]
      exact ih

lemma lastAssign_eq_none_iff (id : String) (as : List (String × Int)) :
    lastAssign id as = none ↔ ∀ a ∈ as, a.1 ≠ id := by
  induction as with
  | nil => simp [lastAssign]
  | cons a rest ih =>
    obtain ⟨aid, p⟩ := a
    simp only [lastAssign]
    cases hl : lastAssign id rest with
    | some q =>
      simp only []
      constructor
      · intro h; simp at h
      · intro h
        exfalso
        have : lastAssign id rest = none := ih.mpr (fun x hx => h x (List.mem_cons_of_mem _ hx))
        rw [hl] at this
        simp at this
    | none =>
      have hrest := ih.mp hl
      by_cases haid : aid = id
      · simp only [if_pos haid]
        constructor
        · intro h; simp at h
        · intro h
          exact absurd haid (by simpa using h (aid, p) (List.mem_cons_self _ _))
      · simp only [if_neg haid]
        constructor
        · intro _
          intro x hx
          rcases List.mem_cons.mp hx with rfl | hx
          · simpa using haid
          · exact hrest x hx
        · intro _; trivial

lemma lastAssign_eq_find?_of_nodup (id : String) (as : List (String × Int))
    (hN : (as.map Prod.fst).Nodup) :
    lastAssign id as = (as.find? (fun a => a.1 = id)).map Prod.snd := by
  induction as with
  | nil => rfl
  | cons a rest ih =>
    obtain ⟨aid, p⟩ := a
    simp only [List.map_cons, List.nodup_cons] at hN
    obtain ⟨hnotin, hNrest⟩ := hN
    by_cases haid : aid = id
    · subst haid
      have hnone : lastAssign aid rest = none := by
        rw [lastAssign_eq_none_iff]
        intro x hx hxid
        exact hnotin (hxid ▸ List.mem_map_of_mem Prod.fst hx)
      simp only [lastAssign, hnone, if_pos rfl, List.find?_cons]
      simp
    · simp only [lastAssign, List.find?_cons]
      have hdec : (decide ((aid, p).1 = id)) = false := by
        simpa using haid
      rw [hdec]
      cases hl : lastAssign id rest with
      | some q => rw [← ih hNrest, hl]
      | none =>
        rw [if_neg haid, ← ih hNrest, hl]

lemma applyAssignments_ok_keys (cats : List (String × Category))
    (as : List (String × Int)) (acc acc' : List (String × Category))
    (h : applyAssignments cats acc as = .ok acc') :
    acc'.map Prod.fst = acc.map Prod.fst := by
  induction as generalizing acc with
  | nil =>
    simp only [applyAssignments, Except.ok.injEq] at h
    rw [h]
  | cons a rest ih =>
    obtain ⟨aid, pos⟩ := a
    simp only [applyAssignments] at h
    split at h
    · simp at h
    · rename_i cur hcur
      rw [ih _ h, setDoc_keys]

lemma applyAssignments_findDoc (cats : List (String × Category))
    (as : List (String × Int)) (acc acc' : List (String × Category))
    (h : applyAssignments cats acc as = .ok acc')
    (hkeys : acc.map Prod.fst = cats.map Prod.fst) (id : String) :
    findDoc acc' id =
      match lastAssign id as with
      | some p => (findDoc cats id).map (fun c => { c with position := some p })
      | none => findDoc acc id := by
  induction as generalizing acc with
  | nil =>
    simp only [applyAssignments, Except.ok.injEq] at h
    rw [← h]
    rfl
  | cons a rest ih =>
    obtain ⟨aid, pos⟩ := a
    simp only [applyAssignments] at h
    split at h
    · simp at h
    · rename_i cur hcur
      have hkeys1 : (setDoc acc aid { cur with position := some pos }).map Prod.fst
          = cats.map Prod.fst := by rw [setDoc_keys]; exact hkeys
      have := ih _ h hkeys1
      simp only [lastAssign]
      cases hl : lastAssign id rest with
      | some q =>
        rw [this, hl]
      | none =>
        rw [this, hl]
        simp only []
        by_cases haid : aid = id
        · subst haid
          rw [if_pos rfl]
          have hsome : (findDoc acc aid).isSome = true := by
            rw [findDoc_isSome_congr acc cats hkeys aid, hcur]
            rfl
          rw [findDoc_setDoc_self acc aid _ hsome, hcur]
          rfl
        · rw [if_neg haid]
          exact findDoc_setDoc_ne acc aid id _ (fun hi => haid hi.symm)

lemma applyFallback_keys (as : List (String × Int))
    (existing acc : List (String × Category)) :
    (applyFallback as existing acc).map Prod.fst = acc.map Prod.fst := by
  induction existing generalizing acc with
  | nil => rfl
  | cons e rest ih =>
    obtain ⟨eid, c⟩ := e
    simp only [applyFallback]
    split
    · exact ih acc
    · rw [ih, setDoc_keys]

lemma applyFallback_assigned (as : List (String × Int))
    (existing acc : List (String × Category)) (id : String)
    (h : as.any (fun a => a.1 = id) = true) :
    findDoc (applyFallback as existing acc) id = findDoc acc id := by
  induction existing generalizing acc with
  | nil => rfl
  | cons e rest ih =>
    obtain ⟨eid, c⟩ := e
    simp only [applyFallback]
    split
    · exact ih acc
    · rename_i hne
      have heid : eid ≠ id := by
        intro hei
        subst hei
        rw [h] at hne
        simp at hne
      rw [ih, findDoc_setDoc_ne acc eid id _ (fun hi => heid hi.symm)]

lemma applyFallback_absent (as : List (String × Int))
    (existing : List (String × Category)) (id : String)
    (h : ∀ e ∈ existing, e.1 ≠ id) :
    ∀ acc, findDoc (applyFallback as existing acc) id = findDoc acc id := by
  induction existing with
  | nil => intro acc; rfl
  | cons e rest ih =>
    intro acc
    obtain ⟨eid, c⟩ := e
    have heid : eid ≠ id := h (eid, c) (List.mem_cons_self _ _)
    simp only [applyFallback]
    split
    · exact ih (fun x hx => h x (List.mem_cons_of_mem _ hx)) acc
    · rw [ih (fun x hx => h x (List.mem_cons_of_mem _ hx)),
        findDoc_setDoc_ne acc eid id _ (fun hi => heid hi.symm)]

lemma applyFallback_unassigned (as : List (String × Int))
    (existing : List (String × Category)) (id : String) (c : Category)
    (hN : (existing.map Prod.fst).Nodup)
    (h : as.any (fun a => a.1 = id) = false)
    (hex : findDoc existing id = some c) :
    ∀ acc, (findDoc acc id).isSome = true →
      findDoc (applyFallback as existing acc) id
        = some { c with position := some (as.length : Int) } := by
  induction existing with
  | nil => simp [findDoc] at hex
  | cons e rest ih =>
    intro acc hacc
    obtain ⟨eid, ec⟩ := e
    simp only [List.map_cons, List.nodup_cons] at hN
    obtain ⟨hnotin, hNrest⟩ := hN
    rw [findDoc_cons] at hex
    by_cases heid : eid = id
    · subst heid
      rw [if_pos rfl] at hex
      injection hex with hec
      subst hec
      simp only [applyFallback]
      split
      · rename_i hany
        rw [h] at hany
        simp at hany
      · rw [applyFallback_absent as rest eid
          (fun x hx hxid => hnotin (hxid ▸ List.mem_map_of_mem Prod.fst hx))]
        exact findDoc_setDoc_self acc eid _ hacc
    · rw [if_neg heid] at hex
      simp only [applyFallback]
      split
      · exact ih hNrest hex acc hacc
      · refine ih hNrest hex _ ?_
        rw [findDoc_setDoc_ne acc eid id _ (fun hi => heid hi.symm)]
        exact hacc

lemma foldl_cost_noguard (ms : List Material) (a : Int) :
    ms.foldl (fun sum m => sum + m.cost * m.quantity) a
      = a + (ms.map (fun m => m.cost * m.quantity)).sum := by
  induction ms generalizing a with
  | nil => simp
  | cons m rest ih =>
    rw [List.foldl_cons, ih]
    simp only [List.map_cons, List.sum_cons]
    ring

lemma adjustSizes_ok (sizeName : String) (delta : Int)
    (sizes sizes' : List SizeOption) (found : Bool)
    (h : adjustSizes sizeName delta sizes = .ok (sizes', found)) :
    sizes' = sizes.map (fun s =>
      if s.name = sizeName then
        { s with
          quantity := s.quantity + delta
          productionCost := some ((s.materials.map (fun m => m.cost * m.quantity)).sum)
          profit := some (s.price - (s.materials.map (fun m => m.cost * m.quantity)).sum) }
      else s) := by
  induction sizes generalizing sizes' found with
  | nil =>
    simp only [adjustSizes, Except.ok.injEq, Prod.mk.injEq] at h
    simp [← h.1]
  | cons s rest ih =>
    simp only [adjustSizes] at h
    split at h
    · rename_i hname
      split at h
      · simp at h
      · split at h
        · simp at h
        · rename_i rest' found' hrec
          simp only [Except.ok.injEq, Prod.mk.injEq] at h
          rw [← h.1, List.map_cons, if_pos hname, ih rest' found' hrec,
            foldl_cost_noguard]
          simp
    · rename_i hname
      split at h
      · simp at h
      · rename_i rest' found' hrec
        simp only [Except.ok.injEq, Prod.mk.injEq] at h
        rw [← h.1, List.map_cons, if_neg hname, ih rest' found' hrec]

/-- C5 counterexample: the claim's parenthetical (following spec §4.3) says
the adjusted variant's `productionCost` uses "the current quantityOnHand as
the material-quantity multiplier".  On a variant at `quantityOnHand = 5`
(6 after the `+1` adjustment) with one material of `unitCost 2,
quantityPerUse 3`, the stored cost is `6 = 2 * 3`, not `2 * 5` nor `2 * 6`. -/
theorem claim5_counterexample :
    (adjustStock adjustStore "t" "p" (some "Unico") 1 none).2 = .ok ∧
    ((findDoc (adjustStock adjustStore "t" "p" (some "Unico") 1 none).1.inventory
        "p").getD default).sizes.map (fun s => s.productionCost) = [some 6] ∧
    ([some 6] : List (Option Int)) ≠ [some (2 * 5)] ∧
    ([some 6] : List (Option Int)) ≠ [some (2 * 6)] := by
  refine ⟨rfl, rfl, by decide, by decide⟩

/-- C5 (amended): a successful `adjustStock` stores, for each size matching
the requested name, `quantity + delta`, a `productionCost` equal to
`Σ unitCost * quantityPerUse` over the size's own materials — with no
floor-to-1 guard and with the material's `quantityPerUse` (not the variant's
`quantityOnHand`) as multiplier — and `profit = unitPrice - productionCost`;
other sizes are unchanged. -/
theorem claim5_adjust_cost_formula (store : Store) (now id sn : String)
    (delta : Int) (notes : Option String) (store' : Store)
    (h : adjustStock store now id (some sn) delta notes = (store', .ok)) :
    ∀ p, findDoc store.inventory id = some p →
      findDoc store'.inventory id = some { p with sizes := p.sizes.map (fun s =>
        if s.name = sn then
          { s with
            quantity := s.quantity + delta
            productionCost := some ((s.materials.map (fun m => m.cost * m.quantity)).sum)
            profit := some (s.price - (s.materials.map (fun m => m.cost * m.quantity)).sum) }
        else s) } := by
  intro p hp
  simp only [adjustStock] at h
  split at h
  · simp at h
  · split at h
    · simp at h
    · rename_i productData hfind
      split at h
      · simp at h
      · rename_i updatedSizes sizeFound hadj
        split at h
        · simp only [Prod.mk.injEq] at h
          rw [hfind] at hp
          injection hp with hp
          subst hp
          rename_i hfound
          rw [← h.1, findDoc_mapUpdate store.inventory id
            (fun q => { q with sizes := updatedSizes }), hfind]
          rw [adjustSizes_ok sn delta productData.sizes updatedSizes sizeFound hadj]
          rfl
        · simp at h

/-- C5 witness: the concrete adjustment on the fixture store stores the
no-guard cost `2 * 3 = 6` and profit `4` on the matching size. -/
theorem claim5_witness :
    findDoc (adjustStock adjustStore "t" "p" (some "Unico") 1 none).1.inventory "p"
      = some { adjustProduct with sizes := adjustProduct.sizes.map (fun s =>
          if s.name = "Unico" then
            { s with
              quantity := s.quantity + 1
              productionCost := some ((s.materials.map (fun m => m.cost * m.quantity)).sum)
              profit := some (s.price - (s.materials.map (fun m => m.cost * m.quantity)).sum) }
          else s) } :=
  claim5_adjust_cost_formula adjustStore "t" "p" "Unico" 1 none _ (by rfl)
    adjustProduct (by rfl)

lemma applyAssignments_error_of_missing (cats : List (String × Category))
    (as : List (String × Int)) (a : String × Int) (ha : a ∈ as)
    (hnone : findDoc cats a.1 = none) :
    ∀ acc, ∃ msg, applyAssignments cats acc as = .error msg := by
  induction as with
  | nil => simp at ha
  | cons b rest ih =>
    intro acc
    obtain ⟨bid, bpos⟩ := b
    rcases List.mem_cons.mp ha with rfl | ha'
    · exact ⟨"Categoría no encontrada: " ++ bid, by simp [applyAssignments, hnone]⟩
    · cases hfb : findDoc cats bid with
      | none => exact ⟨"Categoría no encontrada: " ++ bid, by simp [applyAssignments, hfb]⟩
      | some cur =>
        obtain ⟨msg, hmsg⟩ := ih ha' (setDoc acc bid { cur with position := some bpos })
        exact ⟨msg, by simp [applyAssignments, hfb, hmsg]⟩

/-- C8: a `reorderCategories` transaction gives each listed category exactly
its (uniquely) assigned position; every existing category not listed gets the
shared fallback position `len(assignments)` (so all omitted categories
collide on that value); and it fails `NotFound` when an assigned id does not
exist.  The example `[(A,1),(B,0)]` over `{A,B,C}` is the witness below. -/
theorem claim8_reorder_assignments :
    (∀ (cats : List (String × Category)) (as : List (String × Int))
        (r : List (String × Category)) (id : String) (c : Category),
      (cats.map Prod.fst).Nodup → (as.map Prod.fst).Nodup →
      reorderCategoriesTx cats as = .ok r →
      findDoc cats id = some c →
      findDoc r id = some { c with position := some (assignedPosition as id) }) ∧
    (∀ (cats : List (String × Category)) (as : List (String × Int)) (a : String × Int),
      a ∈ as → findDoc cats a.1 = none →
      ∃ msg, reorderCategoriesTx cats as = .error msg) := by
  constructor
  · intro cats as r id c hNc hNa hr hc
    simp only [reorderCategoriesTx] at hr
    split at hr
    · simp at hr
    · rename_i aa haa
      simp only [Except.ok.injEq] at hr
      subst hr
      have hfd := applyAssignments_findDoc cats as cats aa haa rfl id
      by_cases hany : as.any (fun a => a.1 = id) = true
      · rw [applyFallback_assigned as cats aa id hany, hfd]
        cases hl : lastAssign id as with
        | none =>
          exfalso
          obtain ⟨a, ha, haid⟩ := List.any_eq_true.mp hany
          exact (lastAssign_eq_none_iff id as).mp hl a ha (by simpa using haid)
        | some p =>
          have hfind := lastAssign_eq_find?_of_nodup id as hNa
          rw [hl] at hfind
          cases hf : as.find? (fun a => a.1 = id) with
          | none => rw [hf] at hfind; simp at hfind
          | some a0 =>
            rw [hf] at hfind
            simp only [Option.map_some', Option.some.injEq] at hfind
            simp only [hl, hc, Option.map_some', assignedPosition, hf, Option.getD_some,
              hfind]
      · have hany' : as.any (fun a => a.1 = id) = false := by
          cases hb : as.any (fun a => a.1 = id) with
          | true => exact absurd hb hany
          | false => rfl
        have hl : lastAssign id as = none := by
          rw [lastAssign_eq_none_iff]
          intro a ha haid
          have hcontra : as.any (fun x => x.1 = id) = true :=
            List.any_eq_true.mpr ⟨a, ha, by simpa using haid⟩
          rw [hany'] at hcontra
          simp at hcontra
        have hsome : (findDoc aa id).isSome = true := by
          simp [hfd, hl, hc]
        have hf : as.find? (fun a => a.1 = id) = none := by
          rw [List.find?_eq_none]
          intro a ha
          intro haid
          have hcontra : as.any (fun x => x.1 = id) = true :=
            List.any_eq_true.mpr ⟨a, ha, haid⟩
          rw [hany'] at hcontra
          simp at hcontra
        rw [applyFallback_unassigned as cats id c hNc hany' hc aa hsome]
        simp [assignedPosition, hf]
  · intro cats as a ha hnone
    obtain ⟨msg, hmsg⟩ := applyAssignments_error_of_missing cats as a ha hnone cats
    exact ⟨msg, by simp [reorderCategoriesTx, hmsg]⟩

/-- C8 witness: the spec's example — assignments `[(A,1),(B,0)]` over the
store `{A,B,C}` put `C` at the fallback position `2`; and assigning a
missing id `Z` makes the transaction fail. -/
theorem claim8_witness :
    findDoc reorderedExample "C"
      = some { name := "C", image := "", position := some 2 } ∧
    ∃ msg, reorderCategoriesTx sampleCats [("Z", 0)] = .error msg := by
  constructor
  · exact claim8_reorder_assignments.1 sampleCats [("A", 1), ("B", 0)] reorderedExample
      "C" { name := "C", image := "", position := some 2 } (by decide) (by decide)
      (by rfl) (by rfl)
  · exact claim8_reorder_assignments.2 sampleCats [("Z", 0)] ("Z", 0)
      (List.mem_singleton.mpr rfl) (by rfl)

/-- C7 counterexample: after the successful reorder of `{A,B,C}` with the
assignments `[(A,0),(B,0)]`, the stored positions are `[0, 0, 2]` — two
categories share position 0 and position 1 is absent, so the positions do
not form a contiguous duplicate-free `0..N-1` ordering. -/
theorem claim7_counterexample :
    reorderCategories sampleCats [("A", 0), ("B", 0)] = .success reorderedCats ∧
    ¬ densePositions reorderedCats := by
  exact ⟨rfl, by unfold densePositions; decide⟩

/-- C7 (amended): after any successful `reorderCategories` over a store with
distinct ids, the set of category ids is unchanged and every existing
category ends with a *defined* position (its assigned one, or the shared
fallback `len(assignments)`); contiguity and absence of duplicates are not
guaranteed. -/
theorem claim7_positions_defined (cats : List (String × Category))
    (as : List (String × Int)) (r : List (String × Category))
    (hN : (cats.map Prod.fst).Nodup)
    (h : reorderCategories cats as = .success r) :
    r.map Prod.fst = cats.map Prod.fst ∧
    ∀ id c, findDoc cats id = some c →
      ∃ c', findDoc r id = some c' ∧ c'.position.isSome = true := by
  have htx : reorderCategoriesTx cats as = .ok r := by
    simp only [reorderCategories] at h
    split at h
    · simp at h
    · split at h
      · simp at h
      · split at h
        · simp at h
        · rename_i r' hr'
          simp only [ReorderResult.success.injEq] at h
          rw [← h]
          exact hr'
  simp only [reorderCategoriesTx] at htx
  split at htx
  · simp at htx
  · rename_i aa haa
    simp only [Except.ok.injEq] at htx
    subst htx
    constructor
    · rw [applyFallback_keys, applyAssignments_ok_keys cats as cats aa haa]
    · intro id c hc
      have hfd := applyAssignments_findDoc cats as cats aa haa rfl id
      by_cases hany : as.any (fun a => a.1 = id) = true
      · rw [applyFallback_assigned as cats aa id hany, hfd]
        cases hl : lastAssign id as with
        | none =>
          exfalso
          obtain ⟨a, ha, haid⟩ := List.any_eq_true.mp hany
          exact (lastAssign_eq_none_iff id as).mp hl a ha (by simpa using haid)
        | some p =>
          simp only [hl, hc, Option.map_some']
          exact ⟨_, rfl, rfl⟩
      · have hany' : as.any (fun a => a.1 = id) = false := by
          cases hb : as.any (fun a => a.1 = id) with
          | true => exact absurd hb hany
          | false => rfl
        have hl : lastAssign id as = none := by
          rw [lastAssign_eq_none_iff]
          intro a ha haid
          have hcontra : as.any (fun x => x.1 = id) = true :=
            List.any_eq_true.mpr ⟨a, ha, by simpa using haid⟩
          rw [hany'] at hcontra
          simp at hcontra
        have hsome : (findDoc aa id).isSome = true := by
          simp [hfd, hl, hc]
        rw [applyFallback_unassigned as cats id c hN hany' hc aa hsome]
        exact ⟨_, rfl, rfl⟩

/-- C7 witness: on the colliding reorder of the fixture store, the id set is
preserved and the omitted category `C` still ends with a defined position. -/
theorem claim7_witness :
    reorderedCats.map Prod.fst = sampleCats.map Prod.fst ∧
    ∃ c', findDoc reorderedCats "C" = some c' ∧ c'.position.isSome = true := by
  have h := claim7_positions_defined sampleCats [("A", 0), ("B", 0)] reorderedCats
    (by decide) (by rfl)
  exact ⟨h.1, h.2 "C" { name := "C", image := "", position := some 2 } (by rfl)⟩
